import Mathlib

/-!
Verification of the scheduler evaluation-context core (`scheduler/context.go`):
the `EvalContext` composition, its `ProposedAllocs` projection, `Reset`, and the
lazily created `EvalCache` maps.  Go slices that may be `nil` are embedded as
`Option (List _)` (with `none` standing for a nil slice), Go maps from node id
to allocation slice as association lists, and the fallible state-view query as
`Except`.
-/

/-- Lifecycle status of an allocation.  Modelled from the spec: the status set
{pending, running, complete, failed, lost} is given in the data model section;
the `Allocation` type itself is not among the sampled source files. -/
inductive AllocStatus where
  | pending
  | running
  | complete
  | failed
  | lost
deriving DecidableEq, Repr

/-- Modelled from the spec: an allocation is a task instance bound to a node,
carrying an identity, a node identity, a job/task reference and a lifecycle
status; the `structs.Allocation` type is not among the sampled source files. -/
structure Allocation where
  ID : String
  NodeID : String
  TaskRef : String
  Status : AllocStatus
deriving DecidableEq, Repr

/-- Modelled from the spec: terminal means the status is one of
complete/failed/lost; such allocations no longer occupy resources. -/
def Allocation.TerminalStatus (a : Allocation) : Bool :=
  match a.Status with
  | .complete => true
  | .failed => true
  | .lost => true
  | _ => false

/-- A Go slice that may be nil: `none` is the nil slice, `some l` a non-nil
slice with elements `l`. -/
abbrev GoSlice (α : Type) : Type := Option (List α)

/-- Elements of a Go slice (a nil slice ranges over nothing). -/
def goList {α : Type} (s : GoSlice α) : List α :=
  match s with
  | none => []
  | some l => l

/-- Length of a Go slice (`len` of a nil slice is 0). -/
def goLen {α : Type} (s : GoSlice α) : Nat :=
  (goList s).length

/-- Go `append(a, b...)`: appending zero elements returns the first slice
unchanged (so nil stays nil); appending at least one element yields a non-nil
slice holding the concatenation. -/
def goAppend {α : Type} (a b : GoSlice α) : GoSlice α :=
  match b with
  | none => a
  | some [] => a
  | some l => some (goList a ++ l)

/-- Modelled from the spec: `structs.FilterTerminalAllocs` is not among the
sampled source files; per the projection algorithm it filters out the
allocations whose status is terminal. -/
def FilterTerminalAllocs (allocs : GoSlice Allocation) : GoSlice Allocation :=
  match allocs with
  | none => none
  | some l => some (l.filter (fun a => !a.TerminalStatus))

/-- Modelled from the spec: `structs.RemoveAllocs` is not among the sampled
source files; per the projection algorithm it removes exactly the allocation
instances whose identity (ID) appears in the removal list. -/
def RemoveAllocs (allocs remove : GoSlice Allocation) : GoSlice Allocation :=
  match allocs with
  | none => none
  | some l => some (l.filter (fun a => !(goList remove).any (fun r => r.ID == a.ID)))

/-- Lookup in a Go map from node id to allocation slice: a missing key yields
the nil slice. -/
def mapGet (m : List (String × List Allocation)) (k : String) : GoSlice Allocation :=
  match m with
  | [] => none
  | p :: rest => if p.1 == k then some p.2 else mapGet rest k

/-- Append one allocation to the entry of `k`, creating the entry when absent
(the embedding of `m[k] = append(m[k], a)` on a Go map of slices). -/
def mapAppendAlloc (m : List (String × List Allocation)) (k : String) (a : Allocation) :
    List (String × List Allocation) :=
  match m with
  | [] => [(k, [a])]
  | p :: rest => if p.1 == k then (p.1, p.2 ++ [a]) :: rest else p :: mapAppendAlloc rest k a

/-- Modelled from the spec: the `structs.Plan` type is not among the sampled
source files; per the data model it maps each node to the allocations to evict
(`NodeUpdate`, the field `ProposedAllocs` reads for evictions) and the
allocations to add (`NodeAllocation`, the field read for placements). -/
structure Plan where
  NodeUpdate : List (String × List Allocation)
  NodeAllocation : List (String × List Allocation)
deriving DecidableEq, Repr

/-- Modelled from the spec: `recordEviction(nodeID, allocation)` marks an
existing allocation as scheduled for removal on the node; the Plan is an
append-only accumulator. -/
def Plan.recordEviction (p : Plan) (nodeID : String) (alloc : Allocation) : Plan :=
  { p with NodeUpdate := mapAppendAlloc p.NodeUpdate nodeID alloc }

/-- Modelled from the spec: `recordPlacement(nodeID, allocation)` appends a new
allocation to be created on the node. -/
def Plan.recordPlacement (p : Plan) (nodeID : String) (alloc : Allocation) : Plan :=
  { p with NodeAllocation := mapAppendAlloc p.NodeAllocation nodeID alloc }

/-- Modelled from the spec: the `structs.AllocMetric` accumulator is not among
the sampled source files; per the spec it tracks counters for the nodes
considered and rejected in one placement attempt.  `new(structs.AllocMetric)`
in Go yields the zero value, embedded as `AllocMetric.empty`. -/
structure AllocMetric where
  NodesEvaluated : Nat
  NodesFiltered : Nat
  NodesExhausted : Nat
deriving DecidableEq, Repr

/-- Zero value of `AllocMetric`, as produced by `new(structs.AllocMetric)`. -/
def AllocMetric.empty : AllocMetric :=
  { NodesEvaluated := 0, NodesFiltered := 0, NodesExhausted := 0 }

/-- The `State` capability consumed by the context: `AllocsByNode` answers with
the (possibly nil) slice of allocations bound to a node, or an error when the
snapshot cannot be read. -/
structure State where
  AllocsByNode : String → Except String (GoSlice Allocation)

/-- Compiled regular expression, kept abstract as its source pattern: the
claims about the cache concern storage, not compilation. -/
structure Regexp where
  pattern : String
deriving DecidableEq, Repr

/-- Parsed version constraints, kept abstract as their source string. -/
structure Constraints where
  source : String
deriving DecidableEq, Repr

/-- EvalCache is used to cache certain things during an evaluation.  The two
map fields start out nil (`none`) and are created lazily. -/
structure EvalCache where
  reCache : Option (List (String × Regexp))
  constraintCache : Option (List (String × Constraints))
deriving DecidableEq, Repr

/-- Embedding of `EvalCache.RegexpCache`: creates the map on first use and
returns it.  The method mutates the receiver, so the embedding returns the
updated cache alongside the map. -/
def EvalCache.RegexpCache (e : EvalCache) : EvalCache × List (String × Regexp) :=
  match e.reCache with
  | none => ({ e with reCache := some [] }, [])
  | some m => (e, m)

/-- Embedding of `EvalCache.ConstraintCache`: creates the map on first use and
returns it. -/
def EvalCache.ConstraintCache (e : EvalCache) : EvalCache × List (String × Constraints) :=
  match e.constraintCache with
  | none => ({ e with constraintCache := some [] }, [])
  | some m => (e, m)

/-- Insert-or-replace in an association list: the embedding of a Go map
assignment `m[k] = v`. -/
def assocSet {α : Type} (m : List (String × α)) (k : String) (v : α) :
    List (String × α) :=
  match m with
  | [] => [(k, v)]
  | p :: rest => if p.1 == k then (k, v) :: rest else p :: assocSet rest k v

/-- Embedding of `e.RegexpCache()[k] = v`: in the source the map returned by
`RegexpCache` aliases the struct field, so a write through it updates the
field seen by every later call. -/
def EvalCache.regexpCacheStore (e : EvalCache) (k : String) (v : Regexp) : EvalCache :=
  let p := e.RegexpCache
  { p.1 with reCache := some (assocSet p.2 k v) }

/-- Embedding of `e.ConstraintCache()[k] = v`, writing through the aliased
map. -/
def EvalCache.constraintCacheStore (e : EvalCache) (k : String) (v : Constraints) :
    EvalCache :=
  let p := e.ConstraintCache
  { p.1 with constraintCache := some (assocSet p.2 k v) }

/-- EvalContext is a Context used during an Evaluation.  The Go struct embeds
`EvalCache` and holds the state view, the plan and the metrics; the logger
field carries no data relevant to the claims and is omitted. -/
structure EvalContext where
  evalCache : EvalCache
  state : State
  plan : Plan
  metrics : AllocMetric

/-- Embedding of `EvalContext.Reset`: `e.metrics = new(structs.AllocMetric)`. -/
def EvalContext.Reset (e : EvalContext) : EvalContext :=
  { e with metrics := AllocMetric.empty }

/-- Embedding of `EvalContext.ProposedAllocs`: query the existing allocations,
propagate a query error, filter terminal allocations, remove planned evictions
when any are recorded, append planned placements, and replace a nil result by
an empty non-nil slice.  The method only reads the receiver, so the embedding
returns it unchanged alongside the result. -/
def EvalContext.ProposedAllocs (e : EvalContext) (nodeID : String) :
    EvalContext × Except String (GoSlice Allocation) :=
  match e.state.AllocsByNode nodeID with
  | .error err => (e, .error err)
  | .ok existingAlloc =>
    let filtered := FilterTerminalAllocs existingAlloc
    let update := mapGet e.plan.NodeUpdate nodeID
    let removed := if 0 < goLen update then RemoveAllocs filtered update else filtered
    let proposed := goAppend removed (mapGet e.plan.NodeAllocation nodeID)
    let result : GoSlice Allocation :=
      match proposed with
      | none => some []
      | some l => some l
    (e, .ok result)

/-! Concrete objects for the scenario claims. -/

/-- Running allocation `a1` of the scenario. -/
def alloc1 : Allocation := { ID := "a1", NodeID := "N", TaskRef := "t1", Status := .running }

/-- Complete (terminal) allocation `a2` of the scenario. -/
def alloc2 : Allocation := { ID := "a2", NodeID := "N", TaskRef := "t2", Status := .complete }

/-- Newly placed allocation `a3` of the scenario. -/
def alloc3 : Allocation := { ID := "a3", NodeID := "N", TaskRef := "t3", Status := .pending }

/-- State view for the scenario: node `N` holds `a1` (running) and `a2`
(complete); every other node has no allocations. -/
def scenarioState : State :=
  { AllocsByNode := fun n => if n == "N" then .ok (some [alloc1, alloc2]) else .ok none }

/-- Scenario context before any decision: empty plan, fresh cache and
metrics. -/
def scenarioCtx0 : EvalContext :=
  { evalCache := { reCache := none, constraintCache := none }
    state := scenarioState
    plan := { NodeUpdate := [], NodeAllocation := [] }
    metrics := AllocMetric.empty }

/-- Scenario context after `recordPlacement(N, a3)`. -/
def scenarioCtx1 : EvalContext :=
  { scenarioCtx0 with plan := scenarioCtx0.plan.recordPlacement "N" alloc3 }

/-- Scenario context after additionally `recordEviction(N, a1)`. -/
def scenarioCtx2 : EvalContext :=
  { scenarioCtx1 with plan := scenarioCtx1.plan.recordEviction "N" alloc1 }

/-! Helper forms used to state lemmas about the projection. -/

/-- The final nil check of `ProposedAllocs`: a nil slice is replaced by an
empty non-nil one. -/
def nilGuard (s : GoSlice Allocation) : GoSlice Allocation :=
  match s with
  | none => some []
  | some l => some l

/-- The eviction step of `ProposedAllocs`: remove the planned evictions when
any are recorded. -/
def applyUpdate (filtered update : GoSlice Allocation) : GoSlice Allocation :=
  if 0 < goLen update then RemoveAllocs filtered update else filtered

/-- Terminal (complete) allocation recorded as a planned placement, used to
show that placements are appended to the projection unfiltered. -/
def terminalPlaced : Allocation :=
  { ID := "aT", NodeID := "N", TaskRef := "t", Status := .complete }

/-- Context whose Plan records the terminal allocation `terminalPlaced` as a
placement for node N; the state view has no allocations anywhere. -/
def terminalPlacedCtx : EvalContext :=
  { evalCache := { reCache := none, constraintCache := none }
    state := { AllocsByNode := fun _ => .ok none }
    plan := { NodeUpdate := [], NodeAllocation := [("N", [terminalPlaced])] }
    metrics := AllocMetric.empty }

/-- State view whose query always fails. -/
def failingState : State :=
  { AllocsByNode := fun _ => .error "state unavailable" }

/-- Context over the failing state view. -/
def failingCtx : EvalContext :=
  { evalCache := { reCache := none, constraintCache := none }
    state := failingState
    plan := { NodeUpdate := [], NodeAllocation := [] }
    metrics := AllocMetric.empty }

/-- Context over a state view with no allocations anywhere and an empty
Plan. -/
def emptyNodeCtx : EvalContext :=
  { evalCache := { reCache := none, constraintCache := none }
    state := { AllocsByNode := fun _ => .ok none }
    plan := { NodeUpdate := [], NodeAllocation := [] }
    metrics := AllocMetric.empty }

/-- Running allocation of task `web`, evicted in the C5/C7 witness. -/
def wAllocA : Allocation :=
  { ID := "wA", NodeID := "W", TaskRef := "web", Status := .running }

/-- Running allocation of the same task `web`, kept in the C5/C7 witness. -/
def wAllocB : Allocation :=
  { ID := "wB", NodeID := "W", TaskRef := "web", Status := .running }

/-- Newly placed allocation of the C5 witness. -/
def wAllocC : Allocation :=
  { ID := "wC", NodeID := "W", TaskRef := "web", Status := .pending }

/-- State view for the C5/C7 witnesses: node W holds the two running
allocations of task `web`. -/
def wState : State :=
  { AllocsByNode := fun n => if n == "W" then .ok (some [wAllocA, wAllocB]) else .ok none }

/-! Basic lemmas about the slice helpers. -/

theorem goList_nilGuard (s : GoSlice Allocation) : goList (nilGuard s) = goList s := by
  cases s <;> rfl

theorem mem_goList_goAppend {α : Type} (b : α) (x y : GoSlice α) :
    b ∈ goList (goAppend x y) ↔ b ∈ goList x ∨ b ∈ goList y := by
  cases y with
  | none => simp [goAppend, goList]
  | some l =>
    cases l with
    | nil => simp [goAppend, goList]
    | cons hd tl => simp [goAppend, goList]

theorem mem_goList_filterTerminal (b : Allocation) (s : GoSlice Allocation) :
    b ∈ goList (FilterTerminalAllocs s) ↔ b ∈ goList s ∧ b.TerminalStatus = false := by
  cases s with
  | none => simp [FilterTerminalAllocs, goList]
  | some l => simp [FilterTerminalAllocs, goList, List.mem_filter]

theorem mem_goList_removeAllocs (b : Allocation) (s rm : GoSlice Allocation) :
    b ∈ goList (RemoveAllocs s rm) ↔
      b ∈ goList s ∧ ∀ r ∈ goList rm, r.ID ≠ b.ID := by
  cases s with
  | none => simp [RemoveAllocs, goList]
  | some l => simp [RemoveAllocs, goList, List.mem_filter]

theorem mem_goList_applyUpdate (b : Allocation) (f u : GoSlice Allocation) :
    b ∈ goList (applyUpdate f u) ↔ b ∈ goList f ∧ ∀ r ∈ goList u, r.ID ≠ b.ID := by
  unfold applyUpdate
  by_cases h : 0 < goLen u
  · simp [h, mem_goList_removeAllocs]
  · have hnil : goList u = [] := by
      have := Nat.eq_zero_of_not_pos h
      exact List.length_eq_zero.mp (by simpa [goLen] using this)
    simp [h, hnil]

theorem applyUpdate_nilGuard (f u : GoSlice Allocation) :
    applyUpdate f (nilGuard u) = applyUpdate f u := by
  cases u <;> simp [applyUpdate, nilGuard, goLen, goList]

theorem goAppend_nilGuard (a b : GoSlice Allocation) :
    goAppend a (nilGuard b) = goAppend a b := by
  cases b with
  | none => simp [goAppend, nilGuard]
  | some l => cases l <;> simp [goAppend, nilGuard]

/-! Lemmas about map lookup and the record operations. -/

theorem mapGet_mapAppendAlloc_self (m : List (String × List Allocation))
    (k : String) (a : Allocation) :
    mapGet (mapAppendAlloc m k a) k = some (goList (mapGet m k) ++ [a]) := by
  induction m with
  | nil => simp [mapAppendAlloc, mapGet, goList]
  | cons p rest ih =>
    by_cases h : p.1 = k
    · simp [mapAppendAlloc, mapGet, goList, h]
    · simp [mapAppendAlloc, mapGet, h, ih]

theorem mapGet_mapAppendAlloc_ne (m : List (String × List Allocation))
    (k k' : String) (a : Allocation) (h : k' ≠ k) :
    mapGet (mapAppendAlloc m k a) k' = mapGet m k' := by
  induction m with
  | nil =>
    have hk : ¬ (k = k') := fun hc => h hc.symm
    simp [mapAppendAlloc, mapGet, hk]
  | cons p rest ih =>
    by_cases hp : p.1 = k
    · have hk' : ¬ (p.1 = k') := by rw [hp]; exact fun hc => h hc.symm
      simp [mapAppendAlloc, mapGet, hp, hk', Ne.symm h]
    · by_cases hq : p.1 = k'
      · simp [mapAppendAlloc, mapGet, hp, hq, h]
      · simp [mapAppendAlloc, mapGet, hp, hq, ih]

theorem mapGet_append_nil_entry (m : List (String × List Allocation)) (n : String) :
    mapGet (m ++ [(n, [])]) n = nilGuard (mapGet m n) := by
  induction m with
  | nil => simp [mapGet, nilGuard]
  | cons p rest ih =>
    by_cases h : p.1 = n
    · simp [mapGet, nilGuard, h]
    · simp [mapGet, h, ih]

theorem mem_assocSet_self {α : Type} (m : List (String × α)) (k : String) (v : α) :
    (k, v) ∈ assocSet m k v := by
  induction m with
  | nil => simp [assocSet]
  | cons p rest ih =>
    by_cases h : p.1 = k
    · simp [assocSet, h]
    · have hb : (p.1 == k) = false := by simp [h]
      simp [assocSet, hb]
      right
      exact ih

/-! Characterization of the projection. -/

theorem proposedAllocs_fst (e : EvalContext) (n : String) :
    (e.ProposedAllocs n).1 = e := by
  unfold EvalContext.ProposedAllocs
  cases e.state.AllocsByNode n <;> rfl

theorem proposedAllocs_ok_eq (e : EvalContext) (n : String) (ex : GoSlice Allocation)
    (h : e.state.AllocsByNode n = .ok ex) :
    (e.ProposedAllocs n).2 = .ok (nilGuard (goAppend
      (applyUpdate (FilterTerminalAllocs ex) (mapGet e.plan.NodeUpdate n))
      (mapGet e.plan.NodeAllocation n))) := by
  unfold EvalContext.ProposedAllocs
  rw [h]
  rfl

theorem proposedAllocs_error_eq (e : EvalContext) (n : String) (err : String)
    (h : e.state.AllocsByNode n = .error err) :
    (e.ProposedAllocs n).2 = .error err := by
  unfold EvalContext.ProposedAllocs
  rw [h]

/-! Claim theorems. -/

/-- C1: for node N whose state view reports a1 (running) and a2 (complete) and
an initially empty Plan, ProposedAllocs returns exactly [a1]; after recording a
placement of a3 it returns exactly [a1, a3]; after additionally recording an
eviction of a1 it returns exactly [a3]. -/
theorem C1_scenario_projection :
    (scenarioCtx0.ProposedAllocs "N").2 = .ok (some [alloc1]) ∧
    (scenarioCtx1.ProposedAllocs "N").2 = .ok (some [alloc1, alloc3]) ∧
    (scenarioCtx2.ProposedAllocs "N").2 = .ok (some [alloc3]) :=
  ⟨rfl, rfl, rfl⟩

/-- C2 counterexample: the claim says the projection never contains a
terminal allocation regardless of Plan contents, including one recorded as a
planned placement; but the code appends planned placements unfiltered, so a
terminal allocation recorded as a placement for N does appear in the result. -/
theorem C2_counterexample_terminal_placement :
    terminalPlaced.TerminalStatus = true ∧
    (terminalPlacedCtx.ProposedAllocs "N").2 = .ok (some [terminalPlaced]) ∧
    terminalPlaced ∈ goList (some [terminalPlaced]) :=
  ⟨rfl, rfl, by simp [goList]⟩

/-- C2 (amended): for every node and every terminal allocation, the projection
never contains that allocation — no matter what evictions the Plan records —
provided the allocation is not among the Plan's recorded placements for the
node; terminal allocations from the existing state are always filtered out. -/
theorem C2_terminal_filtered_unless_placed (e : EvalContext) (n : String)
    (a : Allocation) (hterm : a.TerminalStatus = true)
    (hnp : a ∉ goList (mapGet e.plan.NodeAllocation n))
    (r : GoSlice Allocation) (hr : (e.ProposedAllocs n).2 = .ok r) :
    a ∉ goList r := by
  cases hst : e.state.AllocsByNode n with
  | error err =>
    rw [proposedAllocs_error_eq e n err hst] at hr
    exact absurd hr (by simp)
  | ok ex =>
    rw [proposedAllocs_ok_eq e n ex hst] at hr
    have hx := Except.ok.inj hr
    intro hmem
    rw [← hx] at hmem
    rw [show goList (nilGuard _) = goList _ from goList_nilGuard _] at hmem
    rcases (mem_goList_goAppend a _ _).mp hmem with h1 | h2
    · have h3 := (mem_goList_applyUpdate a _ _).mp h1
      have h4 := (mem_goList_filterTerminal a ex).mp h3.1
      rw [hterm] at h4
      exact absurd h4.2 (by simp)
    · exact hnp h2

/-- C2 witness: in the scenario context the terminal allocation a2 is absent
from the projection of node N. -/
theorem C2_witness_terminal_not_projected : alloc2 ∉ goList (some [alloc1]) :=
  C2_terminal_filtered_unless_placed scenarioCtx0 "N" alloc2 rfl
    (by simp [scenarioCtx0, mapGet, goList]) (some [alloc1]) rfl

/-- C3: when the state view's allocations-by-node query fails, ProposedAllocs
returns that error to the caller, never a successful allocation sequence. -/
theorem C3_state_error_propagates (e : EvalContext) (n err : String)
    (h : e.state.AllocsByNode n = .error err) :
    (e.ProposedAllocs n).2 = .error err :=
  proposedAllocs_error_eq e n err h

/-- C3 witness: the failing state view's error is propagated for node N. -/
theorem C3_witness_state_error :
    (failingCtx.ProposedAllocs "N").2 = .error "state unavailable" :=
  C3_state_error_propagates failingCtx "N" "state unavailable" rfl

/-- C4: when the state query succeeds the result is a non-nil slice, and for a
node with no current allocations and no Plan entries the result is the
empty-but-present slice. -/
theorem C4_result_never_nil (e : EvalContext) (n : String) :
    (∀ s, e.state.AllocsByNode n = .ok s →
      ∃ l, (e.ProposedAllocs n).2 = .ok (some l)) ∧
    (∀ s, e.state.AllocsByNode n = .ok s → goList s = [] →
      mapGet e.plan.NodeUpdate n = none → mapGet e.plan.NodeAllocation n = none →
      (e.ProposedAllocs n).2 = .ok (some [])) := by
  constructor
  · intro s hs
    rw [proposedAllocs_ok_eq e n s hs]
    cases hx : goAppend (applyUpdate (FilterTerminalAllocs s) (mapGet e.plan.NodeUpdate n))
        (mapGet e.plan.NodeAllocation n) with
    | none => exact ⟨[], rfl⟩
    | some l => exact ⟨l, rfl⟩
  · intro s hs hnil hu hp
    rw [proposedAllocs_ok_eq e n s hs, hu, hp]
    cases s with
    | none => rfl
    | some l =>
      cases l with
      | nil => rfl
      | cons hd tl => simp [goList] at hnil

/-- C4 witness: a node with no allocations and no Plan entries projects to the
empty-but-present slice. -/
theorem C4_witness_empty_but_present :
    (emptyNodeCtx.ProposedAllocs "M").2 = .ok (some []) :=
  (C4_result_never_nil emptyNodeCtx "M").2 none rfl rfl rfl rfl

/-- Reset leaves the state view and the plan in place, so the projection result
is unchanged by it. -/
theorem proposedAllocs_snd_after_reset (e : EvalContext) (n : String) :
    ((e.Reset).ProposedAllocs n).2 = (e.ProposedAllocs n).2 := by
  cases hst : e.state.AllocsByNode n with
  | error err =>
    rw [proposedAllocs_error_eq e n err hst, proposedAllocs_error_eq (e.Reset) n err hst]
  | ok ex =>
    rw [proposedAllocs_ok_eq e n ex hst, proposedAllocs_ok_eq (e.Reset) n ex hst]
    rfl

/-- C5: for a node whose current state-view allocations are exactly the
non-terminal allocations A and B (distinct instances), recording an eviction
of A and a placement of C makes ProposedAllocs return exactly the set {B, C},
in the order evictions-removed-then-placements-appended. -/
theorem C5_evict_then_place (st : State) (cc : EvalCache) (mm : AllocMetric)
    (n : String) (A B C : Allocation)
    (hs : st.AllocsByNode n = .ok (some [A, B]))
    (hA : A.TerminalStatus = false) (hB : B.TerminalStatus = false)
    (hAB : A.ID ≠ B.ID) :
    (({ evalCache := cc, state := st,
        plan := (({ NodeUpdate := [], NodeAllocation := [] } : Plan).recordEviction n A).recordPlacement
          n C,
        metrics := mm } : EvalContext).ProposedAllocs n).2 = .ok (some [B, C]) := by
  rw [proposedAllocs_ok_eq _ n (some [A, B]) hs]
  simp [Plan.recordEviction, Plan.recordPlacement, mapAppendAlloc, mapGet,
    FilterTerminalAllocs, applyUpdate, RemoveAllocs, goAppend, goLen, goList,
    nilGuard, hA, hB, hAB]

/-- C5 witness: evicting wA and placing wC on node W projects to [wB, wC]. -/
theorem C5_witness_evict_then_place :
    (({ evalCache := { reCache := none, constraintCache := none }, state := wState,
        plan := (({ NodeUpdate := [], NodeAllocation := [] } : Plan).recordEviction "W"
          wAllocA).recordPlacement "W" wAllocC,
        metrics := AllocMetric.empty } : EvalContext).ProposedAllocs "W").2 =
      .ok (some [wAllocB, wAllocC]) :=
  C5_evict_then_place wState { reCache := none, constraintCache := none }
    AllocMetric.empty "W" wAllocA wAllocB wAllocC rfl rfl rfl (by decide)

/-- C6: Reset re-initializes only the metrics accumulator; the plan and the
cache are unchanged, and a placement recorded before Reset is still visible in
a projection made after Reset. -/
theorem C6_reset_only_metrics (e : EvalContext) (n : String) (a : Allocation) :
    (e.Reset).metrics = AllocMetric.empty ∧
    (e.Reset).plan = e.plan ∧
    (e.Reset).evalCache = e.evalCache ∧
    ((({ e with plan := e.plan.recordPlacement n a }).Reset).ProposedAllocs n).2 =
      (({ e with plan := e.plan.recordPlacement n a }).ProposedAllocs n).2 :=
  ⟨rfl, rfl, rfl, proposedAllocs_snd_after_reset _ n⟩

/-- C7: evictions remove allocations from the projection by identity (ID), not
by task name: a surviving non-terminal existing allocation whose ID matches no
recorded eviction is always in the projection, and an existing allocation whose
ID is evicted is absent (unless the Plan itself places that instance). -/
theorem C7_eviction_by_identity (e : EvalContext) (n : String)
    (s : GoSlice Allocation) (hs : e.state.AllocsByNode n = .ok s)
    (b : Allocation) (hb : b ∈ goList s) (hterm : b.TerminalStatus = false)
    (r : GoSlice Allocation) (hr : (e.ProposedAllocs n).2 = .ok r) :
    ((∀ u ∈ goList (mapGet e.plan.NodeUpdate n), u.ID ≠ b.ID) → b ∈ goList r) ∧
    ((∃ u ∈ goList (mapGet e.plan.NodeUpdate n), u.ID = b.ID) →
      b ∉ goList (mapGet e.plan.NodeAllocation n) → b ∉ goList r) := by
  rw [proposedAllocs_ok_eq e n s hs] at hr
  have hx := Except.ok.inj hr
  constructor
  · intro hnone
    rw [← hx, show goList (nilGuard _) = goList _ from goList_nilGuard _]
    rw [mem_goList_goAppend]
    left
    rw [mem_goList_applyUpdate]
    exact ⟨(mem_goList_filterTerminal b s).mpr ⟨hb, hterm⟩, hnone⟩
  · intro hev hnp hmem
    rw [← hx, show goList (nilGuard _) = goList _ from goList_nilGuard _] at hmem
    rcases (mem_goList_goAppend b _ _).mp hmem with h1 | h2
    · have h3 := (mem_goList_applyUpdate b _ _).mp h1
      rcases hev with ⟨u, hu, huid⟩
      exact h3.2 u hu huid
    · exact hnp h2

/-- C7 witness: node W holds two running allocations of the same task `web`;
evicting wA leaves wB (same task, different ID) in the projection. -/
theorem C7_witness_same_task_survives :
    wAllocB ∈ goList (some [wAllocB]) :=
  (C7_eviction_by_identity
      { evalCache := { reCache := none, constraintCache := none }, state := wState,
        plan := ({ NodeUpdate := [], NodeAllocation := [] } : Plan).recordEviction "W" wAllocA,
        metrics := AllocMetric.empty } "W"
      (some [wAllocA, wAllocB]) rfl wAllocB (by simp [goList]) rfl
      (some [wAllocB]) rfl).1
    (by
      intro u hu
      simp [Plan.recordEviction, mapAppendAlloc, mapGet, goList] at hu
      simp [hu, wAllocA, wAllocB])

/-- When evictions are recorded, the eviction step is the removal. -/
theorem applyUpdate_of_pos (f u : GoSlice Allocation) (h : 0 < goLen u) :
    applyUpdate f u = RemoveAllocs f u := by
  simp [applyUpdate, h]

/-- Removing with a duplicated eviction entry removes the same allocations. -/
theorem removeAllocs_dup (f : GoSlice Allocation) (v : List Allocation) (a : Allocation) :
    RemoveAllocs f (some ((v ++ [a]) ++ [a])) = RemoveAllocs f (some (v ++ [a])) := by
  cases f with
  | none => rfl
  | some l =>
    simp only [RemoveAllocs, goList]
    congr 1
    apply List.filter_congr
    intro x _
    simp [List.any_append, Bool.or_assoc, Bool.or_self]

/-- C8: recording the same eviction twice yields the same ProposedAllocs
result, for every node queried, as recording it once. -/
theorem C8_double_eviction_idempotent (e : EvalContext) (n m : String) (a : Allocation) :
    (({ e with plan := (e.plan.recordEviction n a).recordEviction n a }).ProposedAllocs m).2 =
      (({ e with plan := e.plan.recordEviction n a }).ProposedAllocs m).2 := by
  cases hst : e.state.AllocsByNode m with
  | error err =>
    rw [proposedAllocs_error_eq
        { e with plan := (e.plan.recordEviction n a).recordEviction n a } m err hst,
      proposedAllocs_error_eq { e with plan := e.plan.recordEviction n a } m err hst]
  | ok ex =>
    rw [proposedAllocs_ok_eq
        { e with plan := (e.plan.recordEviction n a).recordEviction n a } m ex hst,
      proposedAllocs_ok_eq { e with plan := e.plan.recordEviction n a } m ex hst]
    simp only [Plan.recordEviction]
    by_cases hmn : m = n
    · subst hmn
      rw [mapGet_mapAppendAlloc_self, mapGet_mapAppendAlloc_self]
      simp only [goList]
      rw [applyUpdate_of_pos _ _ (by simp [goLen, goList]),
        applyUpdate_of_pos _ _ (by simp [goLen, goList]),
        removeAllocs_dup]
    · rw [mapGet_mapAppendAlloc_ne _ _ _ _ hmn, mapGet_mapAppendAlloc_ne _ _ _ _ hmn]

/-- C9: RegexpCache and ConstraintCache lazily create their maps, return a map
whose contents equal the (then non-nil) cache field, return the same map on a
repeated call on the resulting cache, and an entry stored through the returned
map is visible through the map obtained from a later call. -/
theorem C9_caches_lazy_and_stable (e : EvalCache) (k kc : String)
    (v : Regexp) (vc : Constraints) :
    (e.RegexpCache).1.reCache = some (e.RegexpCache).2 ∧
    (e.RegexpCache).1.RegexpCache = e.RegexpCache ∧
    (({ reCache := none, constraintCache := none } : EvalCache).RegexpCache).2 = [] ∧
    (k, v) ∈ ((e.regexpCacheStore k v).RegexpCache).2 ∧
    (e.ConstraintCache).1.constraintCache = some (e.ConstraintCache).2 ∧
    (e.ConstraintCache).1.ConstraintCache = e.ConstraintCache ∧
    (({ reCache := none, constraintCache := none } : EvalCache).ConstraintCache).2 = [] ∧
    (kc, vc) ∈ ((e.constraintCacheStore kc vc).ConstraintCache).2 := by
  refine ⟨?_, ?_, rfl, ?_, ?_, ?_, rfl, ?_⟩
  · cases h : e.reCache <;> simp [EvalCache.RegexpCache, h]
  · cases h : e.reCache <;> simp [EvalCache.RegexpCache, h]
  · cases h : e.reCache <;>
      simp [EvalCache.regexpCacheStore, EvalCache.RegexpCache, h, mem_assocSet_self]
  · cases h : e.constraintCache <;> simp [EvalCache.ConstraintCache, h]
  · cases h : e.constraintCache <;> simp [EvalCache.ConstraintCache, h]
  · cases h : e.constraintCache <;>
      simp [EvalCache.constraintCacheStore, EvalCache.ConstraintCache, h, mem_assocSet_self]

/-- C10: ProposedAllocs is read-only — it returns the context unchanged (plan,
metrics and caches included) whether it succeeds or fails — and a Plan with no
entry for a node projects identically to one carrying an empty entry for that
node. -/
theorem C10_proposedAllocs_readonly (e : EvalContext) (n : String) :
    (e.ProposedAllocs n).1 = e ∧
    ((({ e with plan :=
        { e.plan with NodeUpdate := e.plan.NodeUpdate ++ [(n, [])] } }).ProposedAllocs n).2 =
      (e.ProposedAllocs n).2) ∧
    ((({ e with plan :=
        { e.plan with NodeAllocation := e.plan.NodeAllocation ++ [(n, [])] } }).ProposedAllocs n).2 =
      (e.ProposedAllocs n).2) := by
  refine ⟨proposedAllocs_fst e n, ?_, ?_⟩
  · cases hst : e.state.AllocsByNode n with
    | error err =>
      rw [proposedAllocs_error_eq
          { e with plan := { e.plan with NodeUpdate := e.plan.NodeUpdate ++ [(n, [])] } }
          n err hst,
        proposedAllocs_error_eq e n err hst]
    | ok ex =>
      rw [proposedAllocs_ok_eq
          { e with plan := { e.plan with NodeUpdate := e.plan.NodeUpdate ++ [(n, [])] } }
          n ex hst,
        proposedAllocs_ok_eq e n ex hst]
      simp only [mapGet_append_nil_entry, applyUpdate_nilGuard]
  · cases hst : e.state.AllocsByNode n with
    | error err =>
      rw [proposedAllocs_error_eq
          { e with plan := { e.plan with NodeAllocation := e.plan.NodeAllocation ++ [(n, [])] } }
          n err hst,
        proposedAllocs_error_eq e n err hst]
    | ok ex =>
      rw [proposedAllocs_ok_eq
          { e with plan := { e.plan with NodeAllocation := e.plan.NodeAllocation ++ [(n, [])] } }
          n ex hst,
        proposedAllocs_ok_eq e n ex hst]
      simp only [mapGet_append_nil_entry, goAppend_nilGuard]
